import Mathlib

/-!
Verification of the vtmenu terminal-menu core (menu.py).

Strings are modelled as `List Char` (Python strings are character
sequences); Python integers are `Int` (`Nat` where the source value is a
length); terminal output is modelled as a trace of `TermOut` tokens.
While-loops are embedded as fuel-indexed structural recursions; the fuel
supplied by the wrappers is sufficient for every terminating execution of
the source, and the bound theorems hold for every fuel value.
-/

namespace VtMenu

/-! ## Python string helpers -/

/-- The whitespace set stripped by Python `str.strip()` (ASCII part). -/
def pyIsSpace (c : Char) : Bool :=
  c == ' ' || c == '\t' || c == '\n' || c == '\r' || c == '\x0b' || c == '\x0c'

/-- Python `s.strip()`: remove leading and trailing whitespace. -/
def pyStrip (l : List Char) : List Char :=
  ((l.dropWhile pyIsSpace).reverse.dropWhile pyIsSpace).reverse

/-- Python `s.startswith(p)`. -/
def pyStartsWith : List Char → List Char → Bool
  | [], _ => true
  | _ :: _, [] => false
  | p :: ps, c :: cs => p == c && pyStartsWith ps cs

/-- Python `c in s` for a single character. -/
def pyIn (c : Char) (l : List Char) : Bool :=
  l.any (fun x => x == c)

/-- Python `s.split(sep, 1)` given that `sep` occurs in `s`: the part
before the first separator and the part after it.  (All call sites in the
source guard on membership first.) -/
def pySplit1 (sep : Char) : List Char → List Char × List Char
  | [] => ([], [])
  | c :: rest =>
    if c = sep then ([], rest)
    else
      let p := pySplit1 sep rest
      (c :: p.1, p.2)

/-- Helper for Python `s.split()`: accumulate the current word (reversed). -/
def pyWordsAux : List Char → List Char → List (List Char)
  | cur, [] => if cur = [] then [] else [cur.reverse]
  | cur, c :: rest =>
    if pyIsSpace c then
      if cur = [] then pyWordsAux [] rest else cur.reverse :: pyWordsAux [] rest
    else pyWordsAux (c :: cur) rest

/-- Python `s.split()` with no arguments: split on whitespace runs,
dropping empty pieces. -/
def pySplitWs (l : List Char) : List (List Char) :=
  pyWordsAux [] l

/-- Python `" ".join(xs)`. -/
def joinSpace : List (List Char) → List Char
  | [] => []
  | [x] => x
  | x :: y :: rest => x ++ ' ' :: joinSpace (y :: rest)

/-- Decimal digit value of an ASCII digit character. -/
def digitVal (c : Char) : Nat := c.toNat - '0'.toNat

/-- Digits of a Python `int()` literal after the first digit: single
underscores are permitted between digits only. -/
def pyDigitsAux : Nat → List Char → Option Nat
  | acc, [] => some acc
  | acc, '_' :: c :: rest =>
    if c.isDigit then pyDigitsAux (acc * 10 + digitVal c) rest else none
  | _, ['_'] => none
  | acc, c :: rest =>
    if c.isDigit then pyDigitsAux (acc * 10 + digitVal c) rest else none

/-- Unsigned decimal parse for Python `int()`. -/
def pyDigits : List Char → Option Nat
  | [] => none
  | c :: rest => if c.isDigit then pyDigitsAux (digitVal c) rest else none

/-- Python `int(s)` on a whitespace-free token: optional sign, then
digits; `none` models a raised `ValueError`. -/
def pyInt : List Char → Option Int
  | '+' :: rest => (pyDigits rest).map fun n => (n : Int)
  | '-' :: rest => (pyDigits rest).map fun n => -(n : Int)
  | l => (pyDigits l).map fun n => (n : Int)

/-- Python `s.replace(pat, val)` (all occurrences, left to right),
fuel-indexed; `pat` is nonempty at every call site (it always starts with
a dollar sign), which makes `s.length` fuel sufficient. -/
def pyReplaceAux (pat val : List Char) : Nat → List Char → List Char
  | 0, s => s
  | _ + 1, [] => []
  | fuel + 1, c :: rest =>
    if pat ≠ [] ∧ pyStartsWith pat (c :: rest) then
      val ++ pyReplaceAux pat val fuel ((c :: rest).drop pat.length)
    else c :: pyReplaceAux pat val fuel rest

/-- Python `s.replace(pat, val)`. -/
def pyReplace (pat val s : List Char) : List Char :=
  pyReplaceAux pat val s.length s

/-! ## Splitting into display lines (`str.split("\\n")`) -/

/-- Prepend a character to the first line of a line list. -/
def consHead (c : Char) : List (List Char) → List (List Char)
  | [] => [[c]]
  | l :: ls => (c :: l) :: ls

/-- The function `lines xs` is Python `xs.split("\\n")`: the maximal newline-free runs,
always nonempty (the empty string splits to one empty line). -/
def lines : List Char → List (List Char)
  | [] => [[]]
  | c :: rest => if c = '\n' then [] :: lines rest else consHead c (lines rest)

/-- Gluing the line decompositions of two concatenated strings: the last
line of the first run joins the first line of the second. -/
def glue : List (List Char) → List (List Char) → List (List Char)
  | [], ys => ys
  | [x], [] => [x]
  | [x], y :: ys2 => (x ++ y) :: ys2
  | x :: x2 :: xs, ys => x :: glue (x2 :: xs) ys

/-- Every display line of `xs` is at most `k` characters wide. -/
def runsLE (k : Nat) (xs : List Char) : Prop :=
  ∀ l ∈ lines xs, l.length ≤ k

/-- The helper `joinLines` of `wordWrap` flushes finished lines with `joinLines`; the glue lemma
shows this never lengthens an existing display line. -/
def joinLines (newText curLine : List Char) : List Char :=
  if curLine = [] then newText
  else if newText = [] then curLine
  else if newText.getLast? = some '\n' then newText ++ curLine
  else newText ++ '\n' :: curLine

/-! ## TextRendererCore.wordWrap (menu.py lines 70-161) -/

/-- Python `text.replace("\r\n", "\n")` at the top of `wordWrap`. -/
def replaceCRLF : List Char → List Char
  | '\r' :: '\n' :: rest => '\n' :: replaceCRLF rest
  | c :: rest => c :: replaceCRLF rest
  | [] => []

/-- Python `text.find(c)` expressed as a decomposition: the part before
the first occurrence and the part after it (`none` when `find` returns
a negative index). -/
def splitFirst (c : Char) : List Char → Option (List Char × List Char)
  | [] => none
  | x :: xs =>
    if x = c then some ([], xs)
    else
      match splitFirst c xs with
      | some (a, b) => some (x :: a, b)
      | none => none

/-- The `spaceLeft()` closure of `wordWrap`. -/
def spaceLeft (cols : Nat) (curLine : List Char) : Int :=
  (cols : Int) - curLine.length

/-- The `while text:` loop of `wordWrap`, fuel-indexed.  `curLine` and
`newText` are the loop variables; `joinLines` is inlined at each flush
point.  Every loop iteration either consumes input or flushes a nonempty
`curLine`, so `2 * length + 1` fuel (supplied by `wordWrap`) covers every
terminating run of the source. -/
def wordWrapGo (cols : Nat) : Nat → List Char → List Char → List Char → List Char
  | 0, _, curLine, newText => joinLines newText curLine
  | _ + 1, [], curLine, newText => joinLines newText curLine
  | fuel + 1, t :: ts, curLine, newText =>
    if ((t :: ts).length : Int) ≤ spaceLeft cols curLine then
      wordWrapGo cols fuel [] (curLine ++ t :: ts) newText
    else
      match
        (match splitFirst '\n' (t :: ts) with
         | some (bnl, anl) =>
           if ((bnl.length : Int) + 1) ≤ spaceLeft cols curLine + 1 then
             some (bnl, anl)
           else none
         | none => none) with
      | some (bnl, anl) =>
        wordWrapGo cols fuel anl [] (joinLines newText (curLine ++ bnl ++ ['\n']))
      | none =>
        match splitFirst ' ' (t :: ts) with
        | some (bsp, asp) =>
          if (bsp.length : Int) < spaceLeft cols curLine then
            wordWrapGo cols fuel asp (curLine ++ bsp ++ [' ']) newText
          else if (bsp.length : Int) = spaceLeft cols curLine then
            wordWrapGo cols fuel asp (curLine ++ bsp ++ ['\n']) newText
          else if curLine ≠ [] then
            wordWrapGo cols fuel (t :: ts) [] (joinLines newText curLine)
          else
            wordWrapGo cols fuel ((t :: ts).drop (spaceLeft cols curLine).toNat) []
              (joinLines newText (curLine ++ (t :: ts).take (spaceLeft cols curLine).toNat))
        | none =>
          if ((t :: ts).length : Int) < spaceLeft cols curLine then
            wordWrapGo cols fuel [] (curLine ++ t :: ts) newText
          else if ((t :: ts).length : Int) = spaceLeft cols curLine then
            wordWrapGo cols fuel [] (curLine ++ t :: ts) newText
          else if curLine ≠ [] then
            wordWrapGo cols fuel (t :: ts) [] (joinLines newText curLine)
          else
            wordWrapGo cols fuel ((t :: ts).drop (spaceLeft cols curLine).toNat) []
              (joinLines newText (curLine ++ (t :: ts).take (spaceLeft cols curLine).toNat))

/-- Embedding of `TextRendererCore.wordWrap`, with the terminal column count as an
explicit parameter. -/
def wordWrap (cols : Nat) (text : List Char) : List Char :=
  wordWrapGo cols (2 * (replaceCRLF text).length + 1) (replaceCRLF text) [] []

/-! ## TextRendererCore viewport state (menu.py lines 64-267)

Terminal escape traffic does not affect the scroll state, so the
state-mutating parts of the viewport operations are modelled as pure
functions on the state record. -/

/-- The state of a `TextRendererCore`: terminal column count, the row
count `rows = (bottom - top) + 1`, the wrapped text lines `self.text`,
and the scroll offset `self.line`. -/
structure TextRendererCoreState where
  columns : Nat
  rows : Int
  text : List (List Char)
  line : Int

/-- Embedding of `TextRendererCore.__init__`: empty text, offset 0. -/
def tInit (columns : Nat) (rows : Int) : TextRendererCoreState :=
  ⟨columns, rows, [], 0⟩

/-- Embedding of `TextRendererCore.displayText`: wrap, split on newlines, reset the
offset to 0. -/
def TextRendererCoreState.displayText (s : TextRendererCoreState)
    (t : List Char) : TextRendererCoreState :=
  { s with text := lines (wordWrap s.columns t), line := 0 }

/-- Embedding of `TextRendererCore.scrollUp`. -/
def TextRendererCoreState.scrollUp (s : TextRendererCoreState) :
    TextRendererCoreState :=
  if s.line > 0 then { s with line := s.line - 1 } else s

/-- Embedding of `TextRendererCore.scrollDown`. -/
def TextRendererCoreState.scrollDown (s : TextRendererCoreState) :
    TextRendererCoreState :=
  if s.line < (s.text.length : Int) - s.rows then { s with line := s.line + 1 }
  else s

/-- Embedding of `TextRendererCore.boundsEnforce` (menu.py lines 206-211). -/
def TextRendererCoreState.boundsEnforce (s : TextRendererCoreState)
    (line : Int) : Int :=
  let l1 := if line > (s.text.length : Int) - s.rows
            then (s.text.length : Int) - s.rows else line
  if l1 < 0 then 0 else l1

/-- Embedding of `TextRendererCore.pageUp`. -/
def TextRendererCoreState.pageUp (s : TextRendererCoreState) :
    TextRendererCoreState :=
  let l := s.boundsEnforce (s.line - (s.rows - 1))
  if l ≠ s.line then { s with line := l } else s

/-- Embedding of `TextRendererCore.pageDown`. -/
def TextRendererCoreState.pageDown (s : TextRendererCoreState) :
    TextRendererCoreState :=
  let l := s.boundsEnforce (s.line + (s.rows - 1))
  if l ≠ s.line then { s with line := l } else s

/-- Embedding of `TextRendererCore.goToTop`. -/
def TextRendererCoreState.goToTop (s : TextRendererCoreState) :
    TextRendererCoreState :=
  let l := s.boundsEnforce 0
  if l ≠ s.line then { s with line := l } else s

/-- Embedding of `TextRendererCore.goToBottom`. -/
def TextRendererCoreState.goToBottom (s : TextRendererCoreState) :
    TextRendererCoreState :=
  let l := s.boundsEnforce ((s.text.length : Int) - s.rows)
  if l ≠ s.line then { s with line := l } else s

/-- The viewport scroll invariant: `0 ≤ offset ≤ max(0, totalLines − rows)`. -/
def viewInv (s : TextRendererCoreState) : Prop :=
  0 ≤ s.line ∧ s.line ≤ max 0 ((s.text.length : Int) - s.rows)

/-! ## Markup scanner of `TextRendererCore._displayText` (menu.py lines 292-356) -/

/-- Terminal traffic tokens: text payloads and the escape commands the
renderer sends. -/
inductive TermOut
  | text (s : List Char)
  | setBold
  | setNormal
  | saveCursor
  | restoreCursor
  | clearLine
  | moveCursor (row col : Int)
  deriving DecidableEq, Repr

/-- The mutable closure state of `_displayText`: `bolded` is the style
the terminal currently has, `boldRequested` the style last requested via
`setBold`, `linkDepth` the bracket nesting counter. -/
structure ScanState where
  bolded : Bool
  boldRequested : Bool
  linkDepth : Int
  deriving DecidableEq, Repr

/-- The `sendText` closure: flush a pending style change, then emit the
text. -/
def sendText (st : ScanState) (s : List Char) : ScanState × List TermOut :=
  if st.bolded ≠ st.boldRequested then
    ({ st with bolded := st.boldRequested },
     [(if st.boldRequested then TermOut.setBold else TermOut.setNormal),
      TermOut.text s])
  else (st, [TermOut.text s])

/-- One line of the `while text:` scanning loop of `_displayText`,
fuel-indexed (each iteration consumes at least one bracket character, so
`text.length` fuel suffices).  `vis` is the `line > startVisible` test,
constant across one line. -/
def scanText (vis : Bool) : Nat → ScanState → List Char → ScanState × List TermOut
  | 0, st, _ => (st, [])
  | _ + 1, st, [] => (st, [])
  | fuel + 1, st, t :: ts =>
    match splitFirst '[' (t :: ts), splitFirst ']' (t :: ts) with
    | none, none =>
      if vis then
        let r := sendText st (t :: ts)
        (r.1, r.2)
      else (st, [])
    | some (bo, ro), none =>
      let st0 := { st with linkDepth := st.linkDepth + 1 }
      let r1 := if vis then sendText st0 bo else (st0, [])
      let st2 := if r1.1.linkDepth = 1
                 then { r1.1 with boldRequested := true } else r1.1
      let r2 := if vis then sendText st2 ['['] else (st2, [])
      let r3 := scanText vis fuel r2.1 ro
      (r3.1, r1.2 ++ r2.2 ++ r3.2)
    | none, some (ba, ra) =>
      let r1 := if vis then
                  let q1 := sendText st ba
                  let q2 := sendText q1.1 [']']
                  (q2.1, q1.2 ++ q2.2)
                else (st, [])
      let st2 := if r1.1.linkDepth = 1
                 then { r1.1 with boldRequested := false } else r1.1
      let st3 := { st2 with linkDepth := st2.linkDepth - 1 }
      let r3 := scanText vis fuel st3 ra
      (r3.1, r1.2 ++ r3.2)
    | some (bo, ro), some (ba, ra) =>
      if ba.length < bo.length then
        let r1 := if vis then
                    let q1 := sendText st ba
                    let q2 := sendText q1.1 [']']
                    (q2.1, q1.2 ++ q2.2)
                  else (st, [])
        let st2 := if r1.1.linkDepth = 1
                   then { r1.1 with boldRequested := false } else r1.1
        let st3 := { st2 with linkDepth := st2.linkDepth - 1 }
        let r3 := scanText vis fuel st3 ra
        (r3.1, r1.2 ++ r3.2)
      else
        let r1 := if vis then sendText st bo else (st, [])
        let st2 := if r1.1.linkDepth = 0
                   then { r1.1 with boldRequested := true } else r1.1
        let r2 := if vis then sendText st2 ['['] else (st2, [])
        match splitFirst ']' ro with
        | some (ba2, ra2) =>
          let r3 := if vis then
                      let q1 := sendText r2.1 ba2
                      let q2 := sendText q1.1 [']']
                      (q2.1, q1.2 ++ q2.2)
                    else (r2.1, [])
          let st4 := if r3.1.linkDepth = 0
                     then { r3.1 with boldRequested := false } else r3.1
          let r5 := scanText vis fuel st4 ra2
          (r5.1, r1.2 ++ r2.2 ++ r3.2 ++ r5.2)
        | none => (r2.1, r1.2 ++ r2.2)

/-- Scan one full line as `_displayText` does for a visible row, starting
from the given closure state. -/
def scanLine (st : ScanState) (text : List Char) : ScanState × List TermOut :=
  scanText true text.length st text

/-- The style commands inside an output trace. -/
def styleCmds (outs : List TermOut) : List TermOut :=
  outs.filter fun o =>
    match o with
    | TermOut.setBold => true
    | TermOut.setNormal => true
    | _ => false

/-- Pair every transmitted character with the bold state it is rendered
in, given the initial terminal style. -/
def charStyles : Bool → List TermOut → List (Char × Bool)
  | _, [] => []
  | b, TermOut.text s :: rest => (s.map fun c => (c, b)) ++ charStyles b rest
  | _, TermOut.setBold :: rest => charStyles true rest
  | _, TermOut.setNormal :: rest => charStyles false rest
  | b, _ :: rest => charStyles b rest

/-! ## Entry: command templates (menu.py lines 378-462) -/

/-- A menu entry: title, raw command template (`self.__cmd`) and the
parameter-label override mapping (`self.__params`) as an association
list in insertion order. -/
structure Entry where
  title : List Char
  rawCmd : List Char
  paramOverrides : List (List Char × List Char)

/-- Association-list lookup (Python `dict` access preserving insertion
order elsewhere). -/
def assocGet (m : List (List Char × List Char)) (k : List Char) :
    Option (List Char) :=
  match m with
  | [] => none
  | (k2, v) :: rest => if k2 = k then some v else assocGet rest k

/-- The two-state unescaping machine of the `Entry.cmd` property: the
boolean is `true` in the `accumulate` state (a dollar sign was just
seen). -/
def cmdAux : Bool → List Char → List Char
  | _, [] => []
  | false, c :: rest =>
    if c = '$' then cmdAux true rest else c :: cmdAux false rest
  | true, c :: rest =>
    if c = '$' then '$' :: cmdAux false rest else '$' :: c :: cmdAux false rest

/-- Embedding of `Entry.cmd`: the template with `$$` collapsed to `$`. -/
def Entry.cmd (e : Entry) : List Char :=
  cmdAux false e.rawCmd

/-- The final machine state of `cmdAux` after a template. -/
def cmdState : Bool → List Char → Bool
  | st, [] => st
  | false, c :: rest => if c = '$' then cmdState true rest else cmdState false rest
  | true, _ :: rest => cmdState false rest

/-- The placeholder scanner of the `Entry.params` property: state
machine collecting the `seen` list ( `$*` and `$<digits>` tokens, in
order of appearance, duplicates included).  The boolean is the
`accumulate` state, the list argument the accumulated digits. -/
def paramsAux : Bool → List Char → List Char → List (List Char)
  | false, _, [] => []
  | false, acc, c :: rest =>
    if c = '$' then paramsAux true acc rest else paramsAux false acc rest
  | true, acc, [] => if acc = [] then [] else ['$' :: acc]
  | true, acc, c :: rest =>
    if c = '$' ∧ acc = [] then paramsAux false [] rest
    else if c = '*' ∧ acc = [] then ('$' :: '*' :: []) :: paramsAux false [] rest
    else if c.isDigit then paramsAux true (acc ++ [c]) rest
    else if acc = [] then paramsAux false [] rest
    else ('$' :: acc) :: paramsAux false [] rest

/-- The label for a placeholder: the override if present, else `TEXT`
for `$*` and `PARAM<digits>` otherwise. -/
def paramLabel (ov : List (List Char × List Char)) (p : List Char) :
    List Char :=
  match assocGet ov p with
  | some v => v
  | none =>
    if p = '$' :: '*' :: [] then ("TEXT").toList
    else ("PARAM").toList ++ p.drop 1

/-- Deduplicate the `seen` list into the ordered parameter dictionary,
labelling each first occurrence. -/
def buildParams (ov : List (List Char × List Char)) :
    List (List Char) → List (List Char) → List (List Char × List Char)
  | _, [] => []
  | doneKeys, p :: rest =>
    if doneKeys.contains p then buildParams ov doneKeys rest
    else (p, paramLabel ov p) :: buildParams ov (p :: doneKeys) rest

/-- Embedding of `Entry.params`: ordered dictionary from placeholder token to display
label. -/
def Entry.params (e : Entry) : List (List Char × List Char) :=
  buildParams e.paramOverrides [] (paramsAux false [] e.rawCmd)

/-- Embedding of `invalidChars` (menu.py lines 465-469). -/
def invalidChars (param : List Char) : Bool :=
  ((";<>()|&").toList).any fun ch => pyIn ch param

/-! ## Renderer (menu.py lines 472-725) -/

/-- The state of a `Renderer` that the input-processing code reads or
writes: terminal geometry, the input line buffer, the 1-based cursor
position, and the last displayed error. -/
structure RendererState where
  rows : Int
  columns : Int
  input : List Char
  cursorPos : Int
  lastError : List Char
  deriving DecidableEq, Repr

/-- Embedding of `Renderer.__init__`: empty input, cursor at column 1, no error. -/
def rInit (rows columns : Int) : RendererState :=
  ⟨rows, columns, [], 1, []⟩

/-- Embedding of `Renderer.displayError` (menu.py lines 547-559): identical repeated
error text is dropped; otherwise the error line is redrawn and the text
recorded. -/
def Renderer.displayError (s : RendererState) (error : List Char) :
    RendererState × List TermOut :=
  if error = s.lastError then (s, [])
  else
    ({ s with lastError := error },
     [TermOut.saveCursor, TermOut.moveCursor (s.rows - 1) 1,
      TermOut.clearLine, TermOut.setNormal, TermOut.setBold,
      TermOut.text error, TermOut.setNormal, TermOut.restoreCursor])

/-- The editing key events handled by `Renderer.processInput`:
cursor moves, backspace/delete, and a raw byte payload of printable
input.  (`UP`/`DOWN` touch only the viewport and `\r` is ignored.) -/
inductive EditEvent
  | left
  | right
  | backspace
  | delete
  | bytes (bs : List Nat)

/-- The event is representable in the embedding: byte payloads must be
ASCII (Python decodes with `.decode("ascii")`, which raises beyond
`0x7f`). -/
def EditEvent.valid : EditEvent → Prop
  | EditEvent.bytes bs => ∀ b ∈ bs, b < 0x80
  | _ => True

/-- The backspace/delete branch of `Renderer.processInput` (menu.py
lines 575-613); echo traffic does not change the state fields. -/
def Renderer.backspaceDelete (s : RendererState) : RendererState :=
  if s.input = [] then s
  else if s.cursorPos = (s.input.length : Int) + 1 then
    { s with input := s.input.dropLast, cursorPos := s.cursorPos - 1 }
  else if s.cursorPos = 1 then s
  else if s.cursorPos = 2 then
    { s with input := s.input.drop 1, cursorPos := s.cursorPos - 1 }
  else
    { s with
      input := s.input.take (s.cursorPos - 2).toNat ++
               s.input.drop ((s.cursorPos - 2).toNat + 1),
      cursorPos := s.cursorPos - 1 }

/-- The state effect of `Renderer.processInput` for editing events
(menu.py lines 563-613 and 697-722). -/
def Renderer.processInputEdit (s : RendererState) (e : EditEvent) :
    RendererState :=
  match e with
  | EditEvent.left =>
    if s.cursorPos > 1 then { s with cursorPos := s.cursorPos - 1 } else s
  | EditEvent.right =>
    if s.cursorPos < (s.input.length : Int) + 1 then
      { s with cursorPos := s.cursorPos + 1 }
    else s
  | EditEvent.backspace => Renderer.backspaceDelete s
  | EditEvent.delete => Renderer.backspaceDelete s
  | EditEvent.bytes bs =>
    if (s.input.length : Int) < s.columns - 1 then
      let filtered := bs.filter fun v => 0x20 ≤ v
      if filtered = [] then s
      else
        let chars := filtered.map fun v => Char.ofNat v
        if s.cursorPos = (s.input.length : Int) + 1 then
          { s with input := s.input ++ chars, cursorPos := s.cursorPos + 1 }
        else
          { s with
            input := s.input.take (s.cursorPos - 1).toNat ++ chars ++
                     s.input.drop (s.cursorPos - 1).toNat,
            cursorPos := s.cursorPos + 1 }
    else s

/-- The line-editor invariant: `1 ≤ cursor ≤ len(buffer) + 1`. -/
def editInv (s : RendererState) : Prop :=
  1 ≤ s.cursorPos ∧ s.cursorPos ≤ (s.input.length : Int) + 1

/-- The `Action` hierarchy (menu.py lines 12-32) as a closed variant. -/
inductive PAction
  | null
  | exit
  | select (cmd : List Char)
  | setting (name : List Char) (value : Option (List Char))
  deriving DecidableEq, Repr

/-- Result of processing a newline submission: a returned optional
action together with the updated renderer state, or an uncaught Python
exception. -/
inductive SubmitResult
  | ok (a : Option PAction) (s : RendererState)
  | exn (e : List Char)
  deriving DecidableEq, Repr

/-- Embedding of `RendererCore.processInput` (menu.py lines 60-61): the base page
recognizes nothing; `TextRendererCore` does not override it. -/
def RendererCore.processInput (_text : List Char) : Option PAction :=
  none

/-- Outcome of the parameter-collection loop (menu.py lines 647-670). -/
inductive GatherResult
  | ok (ps : List (List Char × List Char))
  | err (m : List Char)
  | valError
  deriving DecidableEq, Repr

/-- The `for param in params` loop of the link-navigation branch:
collect `actualParams` in dictionary order, stopping at the first
validation failure.  `GatherResult.valError` models an (unreachable)
`ValueError` from `int(param[1:])`, caught by the surrounding `except`. -/
def gatherParams (linkAndParams : List (List Char)) :
    List (List Char × List Char) → GatherResult
  | [] => GatherResult.ok []
  | (key, label) :: rest =>
    if key = '$' :: '*' :: [] then
      let val := joinSpace (linkAndParams.drop 1)
      if invalidChars val then
        GatherResult.err (("Parameter ").toList ++ label ++
          (" cannot take value ").toList ++ val)
      else
        match gatherParams linkAndParams rest with
        | GatherResult.ok ps => GatherResult.ok ((key, val) :: ps)
        | r => r
    else
      match pyInt (key.drop 1) with
      | none => GatherResult.valError
      | some which =>
        if which < 1 ∨ (linkAndParams.length : Int) ≤ which then
          GatherResult.err (("Option requires parameter ").toList ++ label)
        else
          let v := linkAndParams.getD which.toNat []
          if invalidChars v then
            GatherResult.err (("Parameter ").toList ++ label ++
              (" cannot take value ").toList ++ v)
          else
            match gatherParams linkAndParams rest with
            | GatherResult.ok ps => GatherResult.ok ((key, v) :: ps)
            | r => r

/-- The link-navigation branch of `Renderer.processInput` (menu.py
lines 628-678).  An absent index token makes `linkAndParams[0]` raise
`IndexError`, which the surrounding `except ValueError` does not catch;
a non-numeric token raises `ValueError`, which it does. -/
def Renderer.linkNav (s : RendererState) (options : List Entry)
    (actual : List Char) : SubmitResult :=
  let linkAndParams := pySplitWs (pyStrip (actual.drop 1))
  match linkAndParams with
  | [] => SubmitResult.exn (("IndexError").toList)
  | tok :: _ =>
    match pyInt tok with
    | none =>
      SubmitResult.ok none
        (Renderer.displayError s (("Invalid link navigation request!").toList)).1
    | some n =>
      let link := n - 1
      if link < 0 ∨ (options.length : Int) ≤ link then
        SubmitResult.ok none
          (Renderer.displayError s (("Unknown menu option!").toList)).1
      else
        let entry := options.getD link.toNat ⟨[], [], []⟩
        let params := entry.params
        if params = [] then
          if linkAndParams.length ≠ 1 then
            SubmitResult.ok none
              (Renderer.displayError s
                (("Option does not take parameters!").toList)).1
          else SubmitResult.ok (some (PAction.select entry.cmd)) s
        else
          match gatherParams linkAndParams params with
          | GatherResult.ok aps =>
            SubmitResult.ok
              (some (PAction.select
                (aps.foldl (fun c kv => pyReplace kv.1 kv.2 c) entry.cmd))) s
          | GatherResult.err m =>
            SubmitResult.ok none (Renderer.displayError s m).1
          | GatherResult.valError =>
            SubmitResult.ok none
              (Renderer.displayError s
                (("Invalid link navigation request!").toList)).1

/-- The `inputVal == b"\n"` branch of `Renderer.processInput` (menu.py
lines 617-696): strip the buffer, delegate to the page renderer, then
resolve link navigation, `set`-commands, or report an unrecognized
command. -/
def Renderer.processNewline (s : RendererState) (options : List Entry) :
    SubmitResult :=
  let actual := pyStrip s.input
  match actual with
  | [] => SubmitResult.ok none s
  | c :: _ =>
    match RendererCore.processInput actual with
    | some a => SubmitResult.ok (some a) s
    | none =>
      if c = '!' then Renderer.linkNav s options actual
      else if actual = ("set").toList ∨
              pyStartsWith (("set ").toList) actual then
        if pyIn ' ' actual = false then
          SubmitResult.ok none
            (Renderer.displayError s (("No setting requested!").toList)).1
        else
          let setting0 := pyStrip (pySplit1 ' ' actual).2
          if pyIn '=' setting0 then
            SubmitResult.ok
              (some (PAction.setting (pyStrip (pySplit1 '=' setting0).1)
                (some (pyStrip (pySplit1 '=' setting0).2)))) s
          else
            SubmitResult.ok (some (PAction.setting (pyStrip setting0) none)) s
      else
        SubmitResult.ok none
          (Renderer.displayError s
            (("Unrecognized command ").toList ++ actual)).1

/-- Modelled from the spec (section 4.5, execution-time substitution):
single-pass literal substitution over a template, collapsing `$$` to `$`
and replacing each placeholder occurrence with its supplied value, so
that characters inside a supplied value are never reinterpreted.  Used
only to compare the code against the claimed substitution semantics. -/
def specLiteralSubst (vals : List (List Char × List Char)) :
    Nat → List Char → List Char
  | 0, s => s
  | _ + 1, [] => []
  | fuel + 1, '$' :: rest =>
    match rest with
    | [] => ['$']
    | '$' :: r2 => '$' :: specLiteralSubst vals fuel r2
    | '*' :: r2 =>
      ((assocGet vals ('$' :: '*' :: [])).getD ('$' :: '*' :: [])) ++
        specLiteralSubst vals fuel r2
    | c :: r2 =>
      if c.isDigit then
        let ds := (c :: r2).takeWhile Char.isDigit
        let rr := (c :: r2).dropWhile Char.isDigit
        ((assocGet vals ('$' :: ds)).getD ('$' :: ds)) ++
          specLiteralSubst vals fuel rr
      else '$' :: specLiteralSubst vals fuel (c :: r2)
  | fuel + 1, c :: rest => c :: specLiteralSubst vals fuel rest

/-- Single-pass literal substitution, with sufficient fuel. -/
def literalSubst (vals : List (List Char × List Char)) (t : List Char) :
    List Char :=
  specLiteralSubst vals t.length t

/-! ## Supporting lemmas -/

theorem lines_ne_nil (xs : List Char) : lines xs ≠ [] := by
  cases xs with
  | nil => simp [lines]
  | cons c rest =>
    simp only [lines]
    split
    · simp
    · cases h : lines rest <;> simp [consHead]

theorem length_le_of_mem_lines {l xs : List Char} (h : l ∈ lines xs) :
    l.length ≤ xs.length := by
  induction xs generalizing l with
  | nil =>
    simp [lines] at h
    simp [h]
  | cons c rest ih =>
    simp only [lines] at h
    by_cases hc : c = '\n'
    · simp [hc] at h
      rcases h with h | h
      · simp [h]
      · exact Nat.le_succ_of_le (ih h)
    · rw [if_neg hc] at h
      cases hls : lines rest with
      | nil => exact absurd hls (lines_ne_nil rest)
      | cons m ms =>
        rw [hls] at h
        simp only [consHead] at h
        rcases List.mem_cons.mp h with h | h
        · subst h
          have : m ∈ lines rest := by rw [hls]; exact List.mem_cons_self _ _
          simpa using Nat.succ_le_succ (ih this)
        · have : l ∈ lines rest := by rw [hls]; exact List.mem_cons_of_mem _ h
          exact Nat.le_succ_of_le (ih this)

theorem consHead_glue {A : List (List Char)} (hA : A ≠ []) (c : Char)
    (B : List (List Char)) : consHead c (glue A B) = glue (consHead c A) B := by
  match A with
  | [x] =>
    cases B with
    | nil => simp [glue, consHead]
    | cons y ys => simp [glue, consHead]
  | x :: x2 :: xs => simp [glue, consHead]

theorem lines_append (a b : List Char) :
    lines (a ++ b) = glue (lines a) (lines b) := by
  induction a with
  | nil =>
    cases hb : lines b with
    | nil => exact absurd hb (lines_ne_nil b)
    | cons y ys => simp [lines, glue, hb]
  | cons c a ih =>
    by_cases hc : c = '\n'
    · subst hc
      cases ha : lines a with
      | nil => exact absurd ha (lines_ne_nil a)
      | cons l ls => simp [lines, glue, ih, ha]
    · show lines (c :: (a ++ b)) = glue (lines (c :: a)) (lines b)
      simp only [lines, if_neg hc, ih]
      exact consHead_glue (lines_ne_nil a) c (lines b)

theorem mem_glue {l : List Char} {A B : List (List Char)} (h : l ∈ glue A B) :
    l ∈ A ∨ l ∈ B ∨ ∃ x y, x ∈ A ∧ y ∈ B ∧ l = x ++ y := by
  induction A with
  | nil => simp only [glue] at h; exact Or.inr (Or.inl h)
  | cons x xs ih =>
    cases xs with
    | nil =>
      cases B with
      | nil =>
        simp only [glue] at h
        simp at h
        exact Or.inl (by simp [h])
      | cons y ys =>
        simp only [glue] at h
        rcases List.mem_cons.mp h with h | h
        · exact Or.inr (Or.inr ⟨x, y, by simp, by simp, h⟩)
        · exact Or.inr (Or.inl (List.mem_cons_of_mem _ h))
    | cons x2 xs2 =>
      simp only [glue] at h
      rcases List.mem_cons.mp h with h | h
      · exact Or.inl (by simp [h])
      · rcases ih h with h | h | ⟨u, v, hu, hv, huv⟩
        · exact Or.inl (List.mem_cons_of_mem _ h)
        · exact Or.inr (Or.inl h)
        · exact Or.inr (Or.inr ⟨u, v, List.mem_cons_of_mem _ hu, hv, huv⟩)

theorem runsLE_nil (k : Nat) : runsLE k [] := by
  intro l hl
  simp [lines] at hl
  simp [hl]

theorem runsLE_of_length_le {k : Nat} {xs : List Char} (h : xs.length ≤ k) :
    runsLE k xs :=
  fun _ hl => le_trans (length_le_of_mem_lines hl) h

theorem runsLE_append_total {k : Nat} {a c : List Char} (ha : runsLE k a)
    (hlen : a.length + c.length ≤ k) : runsLE k (a ++ c) := by
  intro l hl
  rw [lines_append] at hl
  rcases mem_glue hl with h | h | ⟨x, y, hx, hy, hxy⟩
  · exact ha l h
  · exact le_trans (length_le_of_mem_lines h) (le_trans (Nat.le_add_left _ _) hlen)
  · rw [hxy]
    simp only [List.length_append]
    exact le_trans
      (Nat.add_le_add (length_le_of_mem_lines hx) (length_le_of_mem_lines hy)) hlen

theorem glue_cons_nil {A : List (List Char)} (hA : A ≠ []) (C : List (List Char)) :
    glue A ([] :: C) = A ++ C := by
  induction A with
  | nil => exact absurd rfl hA
  | cons x xs ih =>
    cases xs with
    | nil => simp [glue]
    | cons x2 xs2 => simp [glue]; exact ih (by simp)

theorem lines_append_newline_cons (a c : List Char) :
    lines (a ++ '\n' :: c) = lines a ++ lines c := by
  rw [lines_append]
  have : lines ('\n' :: c) = [] :: lines c := by simp [lines]
  rw [this, glue_cons_nil (lines_ne_nil a)]

theorem exists_concat_of_getLast? {xs : List Char} {x : Char}
    (h : xs.getLast? = some x) : ∃ t, xs = t ++ [x] := by
  induction xs with
  | nil => simp at h
  | cons c rest ih =>
    cases rest with
    | nil =>
      simp [List.getLast?] at h
      exact ⟨[], by simp [h]⟩
    | cons d rest2 =>
      rw [List.getLast?_cons_cons] at h
      obtain ⟨t, ht⟩ := ih h
      exact ⟨c :: t, by simp [ht]⟩

theorem runsLE_joinLines {k : Nat} {a c : List Char} (ha : runsLE k a)
    (hc : runsLE k c) : runsLE k (joinLines a c) := by
  unfold joinLines
  split
  · exact ha
  · split
    · exact hc
    · split
      · rename_i hcn han hlast
        obtain ⟨t, ht⟩ := exists_concat_of_getLast? hlast
        subst ht
        intro l hl
        rw [List.append_assoc, List.singleton_append, lines_append_newline_cons] at hl
        rcases List.mem_append.mp hl with h | h
        · refine ha l ?_
          have : lines (t ++ ['\n']) = lines t ++ lines ([] : List Char) := by
            simpa using lines_append_newline_cons t []
          rw [this]
          exact List.mem_append.mpr (Or.inl h)
        · exact hc l h
      · intro l hl
        rw [lines_append_newline_cons] at hl
        rcases List.mem_append.mp hl with h | h
        · exact ha l h
        · exact hc l h

theorem runsLE_append_nl {k : Nat} {a c : List Char} (ha : runsLE k a)
    (hlen : a.length + c.length ≤ k) : runsLE k (a ++ c ++ ['\n']) := by
  intro l hl
  have : lines (a ++ c ++ ['\n']) = lines (a ++ c) ++ lines ([] : List Char) := by
    simpa [List.append_assoc] using lines_append_newline_cons (a ++ c) []
  rw [this] at hl
  rcases List.mem_append.mp hl with h | h
  · exact runsLE_append_total ha hlen l h
  · simp [lines] at h
    simp [h]

theorem wordWrapGo_runsLE (cols : Nat) :
    ∀ (fuel : Nat) (text curLine newText : List Char),
      runsLE cols newText → runsLE cols curLine →
      runsLE cols (wordWrapGo cols fuel text curLine newText) := by
  intro fuel
  induction fuel with
  | zero =>
    intro text curLine newText hNT hCur
    exact runsLE_joinLines hNT hCur
  | succ fuel ih =>
    intro text curLine newText hNT hCur
    cases text with
    | nil => exact runsLE_joinLines hNT hCur
    | cons t ts =>
      simp only [wordWrapGo]
      split
      · rename_i hfits
        refine ih [] (curLine ++ t :: ts) newText hNT
          (runsLE_append_total hCur ?_)
        simp only [spaceLeft] at hfits
        omega
      · rename_i hnofit
        rcases hnl : splitFirst '\n' (t :: ts) with _ | ⟨bnl, anl⟩ <;>
          simp only [hnl]
        · rcases hsp : splitFirst ' ' (t :: ts) with _ | ⟨bsp, asp⟩ <;>
            simp only [hsp]
          · split_ifs with hlt heq hne
            · refine ih _ _ _ hNT (runsLE_append_total hCur ?_)
              simp only [spaceLeft] at hlt
              omega
            · refine ih _ _ _ hNT (runsLE_append_total hCur ?_)
              simp only [spaceLeft] at heq
              omega
            · exact ih (t :: ts) [] (joinLines newText curLine)
                (runsLE_joinLines hNT hCur) (runsLE_nil cols)
            · push_neg at hne
              refine ih _ _ _ (runsLE_joinLines hNT
                (runsLE_append_total hCur ?_)) (runsLE_nil cols)
              subst hne
              simp only [spaceLeft, List.length_nil, List.length_take]
              omega
          · split_ifs with hlt heq hne
            · refine ih _ _ _ hNT ?_
              rw [List.append_assoc]
              refine runsLE_append_total hCur ?_
              simp only [spaceLeft] at hlt
              simp only [List.length_append, List.length_singleton]
              omega
            · refine ih _ _ _ hNT (runsLE_append_nl hCur ?_)
              simp only [spaceLeft] at heq
              omega
            · exact ih (t :: ts) [] (joinLines newText curLine)
                (runsLE_joinLines hNT hCur) (runsLE_nil cols)
            · push_neg at hne
              refine ih _ _ _ (runsLE_joinLines hNT
                (runsLE_append_total hCur ?_)) (runsLE_nil cols)
              subst hne
              simp only [spaceLeft, List.length_nil, List.length_take]
              omega
        · split
          · rename_i a2 b2 heq
            split at heq
            · cases heq
              refine ih _ _ _ (runsLE_joinLines hNT (runsLE_append_nl hCur ?_))
                (runsLE_nil cols)
              simp only [spaceLeft] at *
              omega
            · simp at heq
          · rename_i heq
            split at heq
            · simp at heq
            rcases hsp : splitFirst ' ' (t :: ts) with _ | ⟨bsp, asp⟩ <;>
              simp only [hsp]
            · split_ifs with hlt heq hne
              · refine ih _ _ _ hNT (runsLE_append_total hCur ?_)
                simp only [spaceLeft] at hlt
                omega
              · refine ih _ _ _ hNT (runsLE_append_total hCur ?_)
                simp only [spaceLeft] at heq
                omega
              · exact ih (t :: ts) [] (joinLines newText curLine)
                  (runsLE_joinLines hNT hCur) (runsLE_nil cols)
              · push_neg at hne
                refine ih _ _ _ (runsLE_joinLines hNT
                  (runsLE_append_total hCur ?_)) (runsLE_nil cols)
                subst hne
                simp only [spaceLeft, List.length_nil, List.length_take]
                omega
            · split_ifs with hlt heq hne
              · refine ih _ _ _ hNT ?_
                rw [List.append_assoc]
                refine runsLE_append_total hCur ?_
                simp only [spaceLeft] at hlt
                simp only [List.length_append, List.length_singleton]
                omega
              · refine ih _ _ _ hNT (runsLE_append_nl hCur ?_)
                simp only [spaceLeft] at heq
                omega
              · exact ih (t :: ts) [] (joinLines newText curLine)
                  (runsLE_joinLines hNT hCur) (runsLE_nil cols)
              · push_neg at hne
                refine ih _ _ _ (runsLE_joinLines hNT
                  (runsLE_append_total hCur ?_)) (runsLE_nil cols)
                subst hne
                simp only [spaceLeft, List.length_nil, List.length_take]
                omega

theorem wordWrap_runsLE (cols : Nat) (text : List Char) :
    runsLE cols (wordWrap cols text) :=
  wordWrapGo_runsLE cols _ _ [] [] (runsLE_nil cols) (runsLE_nil cols)

/-! ## Claim theorems -/

/-- Claim C5: for every state of the text viewport satisfying the scroll
invariant `0 ≤ offset ≤ max(0, totalLines − rows)`, the invariant is
preserved by `scrollUp`, `scrollDown`, `pageUp`, `pageDown`, `goToTop`
and `goToBottom`, established by `displayText` and by initialisation,
and `scrollUp`/`scrollDown` move the offset by −1/+1 exactly when the
result stays within bounds, leaving it unchanged otherwise. -/
theorem C5_scroll_invariant (s : TextRendererCoreState) (h : viewInv s) :
    viewInv s.scrollUp ∧ viewInv s.scrollDown ∧ viewInv s.pageUp ∧
    viewInv s.pageDown ∧ viewInv s.goToTop ∧ viewInv s.goToBottom ∧
    (∀ t, viewInv (s.displayText t)) ∧
    (∀ (columns : Nat) (rows : Int), viewInv (tInit columns rows)) ∧
    (s.scrollUp.line =
      if 0 ≤ s.line - 1 ∧ s.line - 1 ≤ max 0 ((s.text.length : Int) - s.rows)
      then s.line - 1 else s.line) ∧
    (s.scrollDown.line =
      if 0 ≤ s.line + 1 ∧ s.line + 1 ≤ max 0 ((s.text.length : Int) - s.rows)
      then s.line + 1 else s.line) := by
  obtain ⟨h0, h1⟩ := h
  refine ⟨?_, ?_, ?_, ?_, ?_, ?_, ?_, ?_, ?_, ?_⟩
  · unfold TextRendererCoreState.scrollUp viewInv
    split_ifs <;> (try dsimp only) <;> omega
  · unfold TextRendererCoreState.scrollDown viewInv
    split_ifs <;> (try dsimp only) <;> omega
  · unfold TextRendererCoreState.pageUp TextRendererCoreState.boundsEnforce
      viewInv
    dsimp only
    split_ifs <;> (try dsimp only) <;> omega
  · unfold TextRendererCoreState.pageDown TextRendererCoreState.boundsEnforce
      viewInv
    dsimp only
    split_ifs <;> (try dsimp only) <;> omega
  · unfold TextRendererCoreState.goToTop TextRendererCoreState.boundsEnforce
      viewInv
    dsimp only
    split_ifs <;> (try dsimp only) <;> omega
  · unfold TextRendererCoreState.goToBottom TextRendererCoreState.boundsEnforce
      viewInv
    dsimp only
    split_ifs <;> (try dsimp only) <;> omega
  · intro t
    unfold TextRendererCoreState.displayText viewInv
    dsimp only
    omega
  · intro columns rows
    unfold tInit viewInv
    dsimp only
    simp only [List.length_nil]
    omega
  · unfold TextRendererCoreState.scrollUp
    split_ifs <;> (try dsimp only) <;> omega
  · unfold TextRendererCoreState.scrollDown
    split_ifs <;> (try dsimp only) <;> omega

/-- Witness for C5 at a concrete in-bounds state. -/
theorem C5_witness :
    viewInv (TextRendererCoreState.scrollUp ⟨80, 10, [[], []], 0⟩) :=
  (C5_scroll_invariant ⟨80, 10, [[], []], 0⟩ (by constructor <;> decide)).1

/-- Claim C6: `boundsEnforce(line)` lands in `[0, max(0, total − rows)]`
for every integer input and viewport with positive row count, and with 5
lines and 10 rows the result is 0 for every input. -/
theorem C6_bounds_clamp (s : TextRendererCoreState) (l : Int)
    (_h : 0 < s.rows) :
    (0 ≤ s.boundsEnforce l ∧
     s.boundsEnforce l ≤ max 0 ((s.text.length : Int) - s.rows)) ∧
    (s.text.length = 5 → s.rows = 10 → s.boundsEnforce l = 0) := by
  unfold TextRendererCoreState.boundsEnforce
  dsimp only
  constructor
  · split_ifs <;> omega
  · intro h5 h10
    split_ifs <;> omega

/-- Witness for C6 at a concrete 5-line, 10-row viewport. -/
theorem C6_witness :
    TextRendererCoreState.boundsEnforce ⟨80, 10, [[], [], [], [], []], 0⟩ 7 = 0 :=
  (C6_bounds_clamp ⟨80, 10, [[], [], [], [], []], 0⟩ 7 (by decide)).2
    (by decide) (by decide)

/-- Claim C9: `displayError` with the text equal to the last shown error
transmits nothing and leaves the state unchanged; a differing text is
rendered (its text token appears in the trace) and recorded as the new
last error, leaving every other field unchanged. -/
theorem C9_error_dedupe (s : RendererState) (e : List Char) :
    (e = s.lastError → Renderer.displayError s e = (s, [])) ∧
    (e ≠ s.lastError →
      (Renderer.displayError s e).1 = { s with lastError := e } ∧
      TermOut.text e ∈ (Renderer.displayError s e).2) := by
  constructor
  · intro h
    simp [Renderer.displayError, h]
  · intro h
    simp [Renderer.displayError, h]

/-- Witness for C9: repeating the shown error transmits nothing. -/
theorem C9_witness :
    Renderer.displayError ⟨24, 80, [], 1, 'x' :: []⟩ ('x' :: []) =
      (⟨24, 80, [], 1, 'x' :: []⟩, []) :=
  (C9_error_dedupe ⟨24, 80, [], 1, 'x' :: []⟩ ('x' :: [])).1 rfl

/-- One editing event preserves the line-editor invariant. -/
theorem editStep_inv (s : RendererState) (e : EditEvent) (h : editInv s)
    (_hv : e.valid) : editInv (Renderer.processInputEdit s e) := by
  obtain ⟨h1, h2⟩ := h
  cases e with
  | left =>
    simp only [Renderer.processInputEdit]
    unfold editInv
    split_ifs <;> (try dsimp only) <;> omega
  | right =>
    simp only [Renderer.processInputEdit]
    unfold editInv
    split_ifs <;> (try dsimp only) <;> omega
  | backspace =>
    simp only [Renderer.processInputEdit]
    unfold Renderer.backspaceDelete editInv
    split_ifs with hemp hend hone htwo <;> (try dsimp only) <;>
      (try simp only [List.length_dropLast, List.length_drop, List.length_take,
        List.length_append]) <;>
      first
        | omega
        | (have hpos : 0 < s.input.length := List.length_pos.mpr hemp
           omega)
  | delete =>
    simp only [Renderer.processInputEdit]
    unfold Renderer.backspaceDelete editInv
    split_ifs with hemp hend hone htwo <;> (try dsimp only) <;>
      (try simp only [List.length_dropLast, List.length_drop, List.length_take,
        List.length_append]) <;>
      first
        | omega
        | (have hpos : 0 < s.input.length := List.length_pos.mpr hemp
           omega)
  | bytes bs =>
    simp only [Renderer.processInputEdit]
    unfold editInv
    split_ifs with hroom hemp hend <;> (try dsimp only) <;>
      (try simp only [List.length_append, List.length_map, List.length_take,
        List.length_drop]) <;>
      first
        | omega
        | (have hpos := List.length_pos.mpr hemp
           omega)

/-- Claim C7: starting from the initial editor state, any sequence of
valid editing events keeps `1 ≤ cursor ≤ len(buffer) + 1`; a
backspace or delete at `cursor == 1` leaves the state unchanged; and a
byte insertion is rejected outright once `len(buffer) == columns − 1`. -/
theorem C7_editor_invariant :
    (∀ rows columns : Int, editInv (rInit rows columns)) ∧
    (∀ (s : RendererState) (evs : List EditEvent), editInv s →
      (∀ e ∈ evs, e.valid) →
      editInv (evs.foldl Renderer.processInputEdit s)) ∧
    (∀ s : RendererState, s.cursorPos = 1 →
      Renderer.processInputEdit s EditEvent.backspace = s ∧
      Renderer.processInputEdit s EditEvent.delete = s) ∧
    (∀ (s : RendererState) (bs : List Nat),
      (s.input.length : Int) = s.columns - 1 →
      Renderer.processInputEdit s (EditEvent.bytes bs) = s) := by
  refine ⟨?_, ?_, ?_, ?_⟩
  · intro rows columns
    unfold rInit editInv
    dsimp only
    simp
  · intro s evs
    induction evs generalizing s with
    | nil => intro h _; exact h
    | cons e evs ih =>
      intro h hv
      simp only [List.foldl_cons]
      exact ih _ (editStep_inv s e h (hv e (List.mem_cons_self _ _)))
        fun e2 he2 => hv e2 (List.mem_cons_of_mem _ he2)
  · intro s hcp
    have hbd : Renderer.backspaceDelete s = s := by
      unfold Renderer.backspaceDelete
      split_ifs with hemp hend
      · rfl
      · exfalso
        have hpos : 0 < s.input.length := List.length_pos.mpr hemp
        omega
      · rfl
    constructor <;> (simp only [Renderer.processInputEdit]; exact hbd)
  · intro s bs hlen
    simp only [Renderer.processInputEdit]
    split_ifs with h1 h2 h3 <;> first | rfl | exact absurd h1 (by omega)

/-- Witness for C7: a left-arrow on the fresh editor keeps the
invariant. -/
theorem C7_witness :
    editInv ([EditEvent.left].foldl Renderer.processInputEdit (rInit 24 80)) :=
  C7_editor_invariant.2.1 (rInit 24 80) [EditEvent.left]
    (C7_editor_invariant.1 24 80) (by intro e he; cases he <;> trivial)

/-- A template ending in a character other than the dollar sign leaves
the unescaping machine in the normal state. -/
theorem cmdState_append_ne_dollar :
    ∀ (t : List Char) (c : Char), c ≠ '$' →
      ∀ st : Bool, cmdState st (t ++ [c]) = false := by
  intro t
  induction t with
  | nil =>
    intro c hc st
    cases st <;> simp [cmdState, hc]
  | cons d t ih =>
    intro c hc st
    cases st with
    | false =>
      by_cases hd : d = '$' <;> simp [cmdState, hd, ih c hc]
    | true => simp [cmdState, ih c hc]

/-- Processing one extra trailing dollar sign emits it only when the
machine ended in the accumulate state. -/
theorem cmdAux_append_dollar :
    ∀ (t : List Char) (st : Bool),
      cmdAux st (t ++ ['$']) =
        cmdAux st t ++ (if cmdState st t then ['$'] else []) := by
  intro t
  induction t with
  | nil =>
    intro st
    cases st <;> simp [cmdAux, cmdState]
  | cons d t ih =>
    intro st
    cases st with
    | false =>
      by_cases hd : d = '$' <;> simp [cmdAux, cmdState, hd, ih]
    | true =>
      by_cases hd : d = '$' <;> simp [cmdAux, cmdState, hd, ih]

/-- Claim C10: the derived `Entry.cmd` collapses `$$` pairs to `$`,
keeps a `$` followed by any other character together with that
character, copies ordinary characters, and silently drops a final
unpaired `$` at the end of the template. -/
theorem C10_cmd_escape :
    (∀ (title : List Char) (ov : List (List Char × List Char))
        (rest : List Char),
      Entry.cmd ⟨title, '$' :: '$' :: rest, ov⟩ =
        '$' :: Entry.cmd ⟨title, rest, ov⟩) ∧
    (∀ title ov (c : Char) rest, c ≠ '$' →
      Entry.cmd ⟨title, '$' :: c :: rest, ov⟩ =
        '$' :: c :: Entry.cmd ⟨title, rest, ov⟩) ∧
    (∀ title ov (c : Char) rest, c ≠ '$' →
      Entry.cmd ⟨title, c :: rest, ov⟩ = c :: Entry.cmd ⟨title, rest, ov⟩) ∧
    (∀ title ov (t : List Char), t.getLast? ≠ some '$' →
      Entry.cmd ⟨title, t ++ ['$'], ov⟩ = Entry.cmd ⟨title, t, ov⟩) := by
  refine ⟨?_, ?_, ?_, ?_⟩
  · intro title ov rest
    simp [Entry.cmd, cmdAux]
  · intro title ov c rest hc
    simp [Entry.cmd, cmdAux, hc]
  · intro title ov c rest hc
    simp [Entry.cmd, cmdAux, hc]
  · intro title ov t hlast
    unfold Entry.cmd
    dsimp only
    cases ht : t.getLast? with
    | none =>
      have : t = [] := by
        cases t with
        | nil => rfl
        | cons d ds => simp [List.getLast?_eq_getLast] at ht
      subst this
      simp [cmdAux]
    | some c =>
      have hc : c ≠ '$' := by
        intro heq
        subst heq
        exact hlast ht
      obtain ⟨t2, ht2⟩ := exists_concat_of_getLast? ht
      rw [cmdAux_append_dollar, ht2,
        cmdState_append_ne_dollar t2 c hc false]
      simp

/-- Witness for C10: a template ending in a lone `$` loses it. -/
theorem C10_witness :
    Entry.cmd ⟨[], 'a' :: '$' :: [], []⟩ = Entry.cmd ⟨[], 'a' :: [], []⟩ :=
  C10_cmd_escape.2.2.2 [] [] ('a' :: []) (by decide)

/-- Claim C2 (code bug): submitting the line `"!"` (a leading bang with
no index token) makes `linkAndParams[0]` raise `IndexError`, which the
`except ValueError` handler does not catch, so `processInput` propagates
an exception instead of showing a validation error. -/
theorem C2_bang_raises :
    Renderer.processNewline ⟨24, 80, '!' :: [], 1, []⟩
        [⟨("t").toList, ("echo $1").toList, []⟩] =
      SubmitResult.exn (("IndexError").toList) := by decide

/-- Claim C3 counterexample: rendering `"[a[b]c]"` from depth 0, the
character `c` is transmitted in normal style — the style is switched
back at the first (inner) `]`, not only at the final one as claimed. -/
theorem C3_counterexample :
    charStyles false (scanLine ⟨false, false, 0⟩ (("[a[b]c]").toList)).2 =
      [('[', true), ('a', true), ('[', true), ('b', true), (']', true),
       ('c', false), (']', false)]
    ∧ charStyles false (scanLine ⟨false, false, 0⟩ (("[a[b]c]").toList)).2 ≠
      [('[', true), ('a', true), ('[', true), ('b', true), (']', true),
       ('c', true), (']', true)] := by
  constructor
  · decide
  · decide

/-- Claim C3 amended: on `"[a[b]c]"` from depth 0 the style is toggled
exactly twice, but the scanner pairs the first `[` with the first `]`:
bold is set at the outer `[`, normal is restored immediately after
emitting `"a[b]"`, the trailing `"c]"` is sent unstyled, and the second
`]` only decrements the depth counter to −1. -/
theorem C3_amended :
    (scanLine ⟨false, false, 0⟩ (("[a[b]c]").toList)).2 =
      [TermOut.text [], TermOut.setBold, TermOut.text ('[' :: []),
       TermOut.text ('a' :: '[' :: 'b' :: []), TermOut.text (']' :: []),
       TermOut.setNormal, TermOut.text ('c' :: []), TermOut.text (']' :: [])]
    ∧ styleCmds (scanLine ⟨false, false, 0⟩ (("[a[b]c]").toList)).2 =
      [TermOut.setBold, TermOut.setNormal]
    ∧ (scanLine ⟨false, false, 0⟩ (("[a[b]c]").toList)).1.linkDepth = -1 := by
  refine ⟨by decide, by decide, by decide⟩

/-- Claim C4 counterexample: with width 10, `"The quick brown fox"`
wraps to `"The quick "` (trailing space kept, length 10) and
`"brown fox"`, not to the claimed `"The quick"`. -/
theorem C4_counterexample :
    lines (wordWrap 10 (("The quick brown fox").toList)) =
      [("The quick ").toList, ("brown fox").toList]
    ∧ [("The quick ").toList, ("brown fox").toList] ≠
      [("The quick").toList, ("brown fox").toList] := by
  refine ⟨by decide, by decide⟩

/-- Claim C4 amended: for every column width and every input text, every
line produced by `wordWrap` has at most `cols` characters (an over-long
word is hard-split into width-sized segments, and a kept trailing space
still fits the bound). -/
theorem C4_wrap_bound (cols : Nat) (text : List Char) :
    ∀ l ∈ lines (wordWrap cols text), l.length ≤ cols :=
  wordWrap_runsLE cols text

/-- Witness for C4 at the worked example. -/
theorem C4_witness :
    ("The quick ").toList ∈ lines (wordWrap 10 (("The quick brown fox").toList))
    ∧ (("The quick ").toList).length ≤ 10 :=
  ⟨by decide,
   C4_wrap_bound 10 (("The quick brown fox").toList) (("The quick ").toList)
     (by decide)⟩

/-- Claim C1 counterexample: with template `"echo $1 $2"` and submitted
line `"!1 $2 x"`, both values pass the disallowed-character check, yet
sequential replacement turns the supplied value `"$2"` into `"x"`: the
code yields `Select("echo x x")` while literal substitution of each
placeholder would give `"echo $2 x"`. -/
theorem C1_counterexample :
    Renderer.processNewline ⟨24, 80, ("!1 $2 x").toList, 1, []⟩
        [⟨("t").toList, ("echo $1 $2").toList, []⟩] =
      SubmitResult.ok (some (PAction.select (("echo x x").toList)))
        ⟨24, 80, ("!1 $2 x").toList, 1, []⟩
    ∧ literalSubst
        [(("$1").toList, ("$2").toList), (("$2").toList, ("x").toList)]
        (("echo $1 $2").toList) = ("echo $2 x").toList
    ∧ ("echo x x").toList ≠ ("echo $2 x").toList := by
  refine ⟨by decide, by decide, by decide⟩

/-- Claim C1 amended: resolution unescapes `$$` first and then performs
sequential global replacement of each placeholder in first-occurrence
order, so a supplied value may be reinterpreted by a later replacement;
the worked examples still hold: `"cost is $$5 for $1"` with `"!1 tea"`
resolves to `Select("cost is $5 for tea")`, and `"echo $1 $2"` with
`"!1 foo bar"` resolves to `Select("echo foo bar")`. -/
theorem C1_amended_examples :
    Renderer.processNewline ⟨24, 80, ("!1 tea").toList, 1, []⟩
        [⟨("t").toList, ("cost is $$5 for $1").toList, []⟩] =
      SubmitResult.ok (some (PAction.select (("cost is $5 for tea").toList)))
        ⟨24, 80, ("!1 tea").toList, 1, []⟩
    ∧ Renderer.processNewline ⟨24, 80, ("!1 foo bar").toList, 1, []⟩
        [⟨("t").toList, ("echo $1 $2").toList, []⟩] =
      SubmitResult.ok (some (PAction.select (("echo foo bar").toList)))
        ⟨24, 80, ("!1 foo bar").toList, 1, []⟩ := by
  refine ⟨by decide, by decide⟩

/-- A true `pyStartsWith` exposes the text as prefix plus remainder. -/
theorem exists_append_of_pyStartsWith :
    ∀ {p l : List Char}, pyStartsWith p l = true → ∃ r, l = p ++ r := by
  intro p
  induction p with
  | nil => exact fun {l} _ => ⟨l, rfl⟩
  | cons c ps ih =>
    intro l h
    cases l with
    | nil => simp [pyStartsWith] at h
    | cons d ds =>
      simp only [pyStartsWith, Bool.and_eq_true, beq_iff_eq] at h
      obtain ⟨r, hr⟩ := ih h.2
      exact ⟨r, by simp [h.1, hr]⟩

/-- Claim C8 counterexample: the submitted trimmed line `"set"` does not
produce a `Setting` action — the code shows the error
`"No setting requested!"` and returns no action. -/
theorem C8_counterexample :
    Renderer.processNewline ⟨24, 80, ("set").toList, 1, []⟩ [] =
      SubmitResult.ok none
        ⟨24, 80, ("set").toList, 1, ("No setting requested!").toList⟩ := by
  decide

/-- Claim C8 amended: every submitted line whose trimmed text starts
with `"set "` produces `Setting(name, valueOrNone)` where the text after
the first space is split once on `=` with both sides trimmed and the
value absent when no `=` occurs (the bare word `"set"`, by contrast,
shows an error); in particular `"set cols=80"` gives
`Setting("cols","80")` and `"set cols = 132 "` gives
`Setting("cols","132")`. -/
theorem C8_set_parse (s : RendererState) (options : List Entry)
    (h : pyStartsWith (("set ").toList) (pyStrip s.input) = true) :
    (Renderer.processNewline s options =
      if pyIn '=' (pyStrip (pySplit1 ' ' (pyStrip s.input)).2) then
        SubmitResult.ok (some (PAction.setting
          (pyStrip (pySplit1 '=' (pyStrip (pySplit1 ' ' (pyStrip s.input)).2)).1)
          (some (pyStrip
            (pySplit1 '=' (pyStrip (pySplit1 ' ' (pyStrip s.input)).2)).2)))) s
      else
        SubmitResult.ok (some (PAction.setting
          (pyStrip (pyStrip (pySplit1 ' ' (pyStrip s.input)).2)) none)) s)
    ∧ Renderer.processNewline ⟨24, 80, ("set cols=80").toList, 1, []⟩ [] =
        SubmitResult.ok
          (some (PAction.setting (("cols").toList) (some (("80").toList))))
          ⟨24, 80, ("set cols=80").toList, 1, []⟩
    ∧ Renderer.processNewline ⟨24, 80, ("set cols = 132 ").toList, 1, []⟩ [] =
        SubmitResult.ok
          (some (PAction.setting (("cols").toList) (some (("132").toList))))
          ⟨24, 80, ("set cols = 132 ").toList, 1, []⟩ := by
  refine ⟨?_, by decide, by decide⟩
  obtain ⟨r, hr⟩ := exists_append_of_pyStartsWith h
  have hr2 : pyStrip s.input = 's' :: 'e' :: 't' :: ' ' :: r := by
    simpa using hr
  simp only [Renderer.processNewline, hr2, RendererCore.processInput]
  simp [pyStartsWith, pyIn, pySplit1]

/-- Witness for C8 at a concrete `set` line. -/
theorem C8_witness :
    Renderer.processNewline ⟨24, 80, ("set a=b").toList, 1, []⟩ [] =
      SubmitResult.ok
        (some (PAction.setting (('a' :: []) : List Char) (some ('b' :: []))))
        ⟨24, 80, ("set a=b").toList, 1, []⟩ := by
  rw [(C8_set_parse ⟨24, 80, ("set a=b").toList, 1, []⟩ [] (by decide)).1]
  decide

end VtMenu
